import Mathlib

/-!
# PubMed search service: response normalisation

A shallow embedding of the two request handlers of `src/index.js`:

* `POST /api/search` (lines 21-89): the part after the upstream calls, that is the
  empty-list short cut (line 54) and the `ids.map` over the summary mapping (lines 70-82),
  here `normalizeSearch`;
* `GET /api/article/:id` (lines 92-184): the part after the XML has been parsed
  (lines 109-177), here `normalizeDetail`.

The handlers are written in JavaScript and read loosely typed data, so the embedding works
over a type of JavaScript values with the language's own rules for property reads,
truthiness, string conversion, `Array.prototype.join` and `String.prototype.replace`.
A thrown `TypeError` is caught by the handler's `catch` block (status 500); the guard of
line 111 answers with status 404.

Modelling boundaries: strings are sequences of Unicode scalar values (no lone surrogates);
numbers are integers; objects carry their own members only, so names inherited from
`Object.prototype` are not looked up, and the identifiers of the search are PubMed
identifiers, which are digit strings.
-/

namespace PubMed

/-! ## JavaScript values -/

/-- JavaScript values as they come out of `JSON.parse` and of the `xml2js` parser. -/
inductive JVal where
  | undefined
  | null
  | bool (b : Bool)
  | num (n : Int)
  | str (s : String)
  | arr (items : List JVal)
  | obj (members : List (String × JVal))

/-- The two ways a handler answers without data: the `catch` block (status 500) and the
guard of line 111 (status 404). -/
inductive Failure where
  | internal
  | notFound
  deriving DecidableEq, Repr

open JVal

/-- The truthiness test of `?:`, `||`, `&&`, `if` and `!`. -/
def truthy : JVal → Bool
  | undefined => false
  | null => false
  | .bool b => b
  | num n => decide (n ≠ 0)
  | str s => decide (s ≠ "")
  | arr _ => true
  | obj _ => true

/-- Own member `k` of an object given by its member list, `undefined` when there is none. -/
def member (ms : List (String × JVal)) (k : String) : JVal :=
  (ms.lookup k).getD undefined

/-- Total read of a member: `undefined` on everything that is not an object. -/
def child (v : JVal) (k : String) : JVal :=
  match v with
  | obj ms => member ms k
  | _ => undefined

/-- The property read `v.k` (or `v[k]`). Reading from `undefined` or `null` throws a
`TypeError`. Strings, numbers, booleans and arrays have no member under any of the names
the handlers read (`title`, `authors`, `Label`, `_`, `$`, ...), so the read yields
`undefined` there. -/
def getProp (v : JVal) (k : String) : Except Failure JVal :=
  match v with
  | undefined => .error .internal
  | null => .error .internal
  | v => .ok (child v k)

/-- The operator `a || b`, the right operand evaluated on demand. -/
def jsOr (a : JVal) (b : Except Failure JVal) : Except Failure JVal :=
  if truthy a then .ok a else b

/-- The operator `a && b`, the right operand evaluated on demand. -/
def jsAnd (a : JVal) (b : Except Failure JVal) : Except Failure JVal :=
  if truthy a then b else .ok a

/-- The test `typeof v === 'object'`, which `null` passes too. -/
def isObjectType : JVal → Bool
  | null => true
  | arr _ => true
  | obj _ => true
  | _ => false

/-- The test `Array.isArray(v)`. -/
def isArray : JVal → Bool
  | arr _ => true
  | _ => false

/-- The comparison `v === s` against a string. -/
def strictEqStr (v : JVal) (s : String) : Bool :=
  match v with
  | str t => decide (t = s)
  | _ => false

mutual
/-- The string conversion of template literals and of `+` with a string operand. -/
def toStr : JVal → String
  | undefined => "undefined"
  | null => "null"
  | .bool b => if b then "true" else "false"
  | num n => toString n
  | str s => s
  | arr xs => ",".intercalate (itemStrs xs)
  | obj _ => "[object Object]"
/-- The strings `Array.prototype.join` puts between the separators: the empty string for
`undefined` and `null`, the string conversion for every other element. -/
def itemStrs : List JVal → List String
  | [] => []
  | undefined :: xs => "" :: itemStrs xs
  | null :: xs => "" :: itemStrs xs
  | x :: xs => toStr x :: itemStrs xs
end

/-- The call `xs.join(sep)` on an array. -/
def joinWith (sep : String) (xs : List JVal) : String :=
  sep.intercalate (itemStrs xs)

/-- Sequential map with a callback that may throw, left to right. -/
def mapE {α β : Type} (f : α → Except Failure β) : List α → Except Failure (List β)
  | [] => .ok []
  | x :: xs =>
    match f x with
    | .error e => .error e
    | .ok y =>
      match mapE f xs with
      | .error e => .error e
      | .ok ys => .ok (y :: ys)

/-- The call `v.map(f)`: only an array has a `map` method, calling it on anything else
throws. -/
def arrayMap {β : Type} (v : JVal) (f : JVal → Except Failure β) : Except Failure (List β) :=
  match v with
  | arr xs => mapE f xs
  | _ => .error .internal

/-- The call `xs.find(p)` on an array: the first element the callback accepts, `undefined`
when there is none. -/
def findE (p : JVal → Except Failure Bool) : List JVal → Except Failure JVal
  | [] => .ok undefined
  | x :: xs =>
    match p x with
    | .error e => .error e
    | .ok true => .ok x
    | .ok false => findE p xs

/-- Removal of the first occurrence of `pat`, on character lists. -/
def removeFirstChars (pat : List Char) : List Char → List Char
  | [] => []
  | c :: cs =>
    if pat.isPrefixOf (c :: cs) then (c :: cs).drop pat.length
    else c :: removeFirstChars pat cs

/-- The call `s.replace(pat, '')` with a string pattern: the first occurrence of `pat` in
`s`, wherever it is, is removed. -/
def removeFirst (pat s : String) : String :=
  ⟨removeFirstChars pat.data s.data⟩

/-- The call `v.replace('doi: ', '')` of line 79: only a string has a `replace` method. -/
def replaceDoi (v : JVal) : Except Failure JVal :=
  match v with
  | str s => .ok (str (removeFirst "doi: " s))
  | _ => .error .internal

/-! ## The search handler, lines 52-82 -/

/-- The object built at lines 72-81. -/
structure ArticleSummary where
  id : String
  title : JVal
  authors : String
  journal : JVal
  pubDate : JVal
  abstract : JVal
  doi : JVal
  url : String

/-- Line 75: `article.authors ? article.authors.map(author => author.name).join(', ') : '未知作者'`. -/
def summaryAuthors (article : JVal) : Except Failure String := do
  let authors ← getProp article "authors"
  if truthy authors then
    let names ← arrayMap authors (fun author => getProp author "name")
    pure (joinWith ", " names)
  else
    pure "未知作者"

/-- Line 76: `article.fulljournalname || article.source || '未知期刊'`. -/
def summaryJournal (article : JVal) : Except Failure JVal := do
  let fulljournalname ← getProp article "fulljournalname"
  jsOr fulljournalname (do
    let source ← getProp article "source"
    jsOr source (pure (str "未知期刊")))

/-- Line 79: `article.elocationid ? article.elocationid.replace('doi: ', '') : null`. -/
def summaryDoi (article : JVal) : Except Failure JVal := do
  let elocationid ← getProp article "elocationid"
  if truthy elocationid then replaceDoi elocationid else pure null

/-- The callback of `ids.map`, lines 70-82. -/
def summaryOf (results : List (String × JVal)) (id : String) : Except Failure ArticleSummary := do
  let article := member results id
  let title ← getProp article "title"
  let authors ← summaryAuthors article
  let journal ← summaryJournal article
  let pubdate ← getProp article "pubdate"
  let pubDate ← jsOr pubdate (pure (str "未知日期"))
  let abstract ← getProp article "abstract"
  let abstract ← jsOr abstract (pure (str "无摘要"))
  let doi ← summaryDoi article
  pure
    { id := id, title := title, authors := authors, journal := journal, pubDate := pubDate,
      abstract := abstract, doi := doi,
      url := "https://pubmed.ncbi.nlm.nih.gov/" ++ id ++ "/" }

/-- Lines 54-82: the empty list is answered at once, otherwise every identifier is looked
up in the summary mapping `results` and turned into an `ArticleSummary`. -/
def normalizeSearch (ids : List String) (results : List (String × JVal)) :
    Except Failure (List ArticleSummary) :=
  if ids.isEmpty then .ok [] else mapE (summaryOf results) ids

/-! ## The article handler, lines 109-177 -/

/-- The object built at lines 163-177. -/
structure ArticleDetail where
  id : JVal
  title : JVal
  authors : String
  journal : JVal
  pubDate : JVal
  abstract : JVal
  doi : JVal
  keywords : List JVal
  url : String

/-- The callback of lines 122-127, applied to one element of `AbstractText`. -/
def sectionText (sect : JVal) : Except Failure JVal := do
  if isObjectType sect then
    let text ← getProp sect "_"
    if truthy text then
      let attrs ← getProp sect "$"
      let label ← jsAnd attrs (getProp attrs "Label")
      let head := if truthy label then toStr label ++ ": " else ""
      pure (str (head ++ toStr text))
    else
      pure sect
  else
    pure sect

/-- Lines 119-131. -/
def abstractOf (article : JVal) : Except Failure JVal := do
  let abs ← getProp article "Abstract"
  let abstractText ← jsAnd abs (getProp abs "AbstractText")
  if truthy abstractText then
    if isArray abstractText then
      let sections ← arrayMap abstractText sectionText
      pure (str (joinWith "\n" sections))
    else
      pure abstractText
  else
    pure (str "无摘要")

/-- Lines 138-140 and 144-146: the display string of one author. -/
def authorText (author : JVal) : Except Failure String := do
  let lastName ← getProp author "LastName"
  let lastName ← jsOr lastName (pure (str ""))
  let foreName ← getProp author "ForeName"
  let foreName ← jsOr foreName (pure (str ""))
  pure (toStr lastName ++ (if truthy lastName && truthy foreName then " " else "")
    ++ toStr foreName)

/-- Lines 134-148: the array `authors`. -/
def authorsOf (article : JVal) : Except Failure (List String) := do
  let authorList ← getProp article "AuthorList"
  let author ← jsAnd authorList (getProp authorList "Author")
  if truthy author then
    if isArray author then
      arrayMap author authorText
    else do
      let one ← authorText author
      pure [one]
  else
    pure []

/-- The callback of line 157: `idObj.$ && idObj.$.IdType === 'doi'`. -/
def isDoiId (idObj : JVal) : Except Failure Bool := do
  let attrs ← getProp idObj "$"
  if truthy attrs then
    let idType ← getProp attrs "IdType"
    pure (strictEqStr idType "doi")
  else
    pure false

/-- Lines 151-161. -/
def doiOf (articleSet : JVal) : Except Failure JVal := do
  let pubmedData ← getProp articleSet "PubmedData"
  let idList ← jsAnd pubmedData (getProp pubmedData "ArticleIdList")
  let articleId ← jsAnd idList (getProp idList "ArticleId")
  if truthy articleId then
    let articleIds := match articleId with
      | arr xs => xs
      | x => [x]
    let doiObject ← findE isDoiId articleIds
    if truthy doiObject then getProp doiObject "_" else pure null
  else
    pure null

/-- Lines 171-175, on `articleSet.MedlineCitation`. -/
def keywordsOf (citation : JVal) : Except Failure (List JVal) := do
  let keywordList ← getProp citation "KeywordList"
  if truthy keywordList then
    let keyword ← getProp keywordList "Keyword"
    if isArray keyword then
      arrayMap keyword (fun k => getProp k "_")
    else do
      let one ← getProp keyword "_"
      pure [one]
  else
    pure []

/-- Lines 109-177, on the parsed response `result`. -/
def normalizeDetail (result : JVal) : Except Failure ArticleDetail := do
  let root ← getProp result "PubmedArticleSet"
  let articleSet ← getProp root "PubmedArticle"
  if truthy articleSet then
    let citation ← getProp articleSet "MedlineCitation"
    let article ← getProp citation "Article"
    let pmidNode ← getProp citation "PMID"
    let pmid ← getProp pmidNode "_"
    let abstract ← abstractOf article
    let authors ← authorsOf article
    let doi ← doiOf articleSet
    let articleTitle ← getProp article "ArticleTitle"
    let title ← jsOr articleTitle (pure (str "无标题"))
    let joined := ", ".intercalate authors
    let authorsText := if joined ≠ "" then joined else "未知作者"
    let journalNode ← getProp article "Journal"
    let journalTitle ← getProp journalNode "Title"
    let journal ← jsOr journalTitle (pure (str "未知期刊"))
    let issue ← getProp journalNode "JournalIssue"
    let pubDateNode ← getProp issue "PubDate"
    let year ← getProp pubDateNode "Year"
    let pubDate ← jsOr year (do
      let medlineDate ← getProp pubDateNode "MedlineDate"
      jsOr medlineDate (pure (str "未知日期")))
    let keywords ← keywordsOf citation
    pure
      { id := pmid, title := title, authors := authorsText, journal := journal,
        pubDate := pubDate, abstract := abstract, doi := doi, keywords := keywords,
        url := "https://pubmed.ncbi.nlm.nih.gov/" ++ toStr pmid ++ "/" }
  else
    .error .notFound

/-- The handler of lines 92-184 with the upstream answer, already parsed, as a parameter:
the requested `id` is used for the upstream call only (lines 97-103). -/
def articleRoute (_id : String) (result : JVal) : Except Failure ArticleDetail :=
  normalizeDetail result

/-! ## Shapes of the input -/

/-- The values a property read throws on. -/
def isNullish : JVal → Bool
  | undefined => true
  | null => true
  | _ => false

/-- The test for a plain object. -/
def isObj : JVal → Bool
  | obj _ => true
  | _ => false

mutual
/-- Trees as the XML parser (and `JSON.parse` of upstream data without `null`) builds them:
no `undefined` and no `null` at any depth. An absent node is a missing member, not a
member holding `undefined`. -/
def noNullish : JVal → Bool
  | undefined => false
  | null => false
  | arr xs => noNullishList xs
  | obj ms => noNullishMembers ms
  | _ => true
/-- The elements of an array are free of `undefined` and `null`. -/
def noNullishList : List JVal → Bool
  | [] => true
  | x :: xs => noNullish x && noNullishList xs
/-- The members of an object are free of `undefined` and `null`. -/
def noNullishMembers : List (String × JVal) → Bool
  | [] => true
  | (_, v) :: ms => noNullish v && noNullishMembers ms
end

/-- A node read from a parser-built tree: absent, or free of `undefined` and `null`. -/
def okNode (v : JVal) : Prop :=
  v = undefined ∨ noNullish v = true

/-- A member that is absent or holds text. -/
def textOrAbsent : JVal → Bool
  | undefined => true
  | str _ => true
  | _ => false

/-- The text of a member that holds text, the empty string for a missing one. -/
def textOf : JVal → String
  | str s => s
  | _ => ""

/-- An abstract section that is rendered from its text: a bare text, or an object whose
text member is a non-empty text and whose label attribute, when present, is text. -/
def isSection : JVal → Bool
  | str _ => true
  | obj ms =>
    (match member ms "_" with
      | str text => decide (text ≠ "")
      | _ => false) &&
    textOrAbsent (child (member ms "$") "Label")
  | _ => false

/-- The reading of a variant-shape node as a sequence: nothing when the node is absent, the
elements of a list, and the one value otherwise. -/
def variantList : JVal → List JVal
  | undefined => []
  | arr xs => xs
  | x => [x]

/-! ## The nodes of a detail tree -/

/-- The node `result.PubmedArticleSet.PubmedArticle`, read with the total `child`. -/
def articleSetOf (result : JVal) : JVal :=
  child (child result "PubmedArticleSet") "PubmedArticle"

/-- The node `articleSet.MedlineCitation`. -/
def citationOf (result : JVal) : JVal :=
  child (articleSetOf result) "MedlineCitation"

/-- The node `articleSet.MedlineCitation.Article`. -/
def articleOf (result : JVal) : JVal :=
  child (citationOf result) "Article"

/-- The node `article.Abstract.AbstractText`. -/
def abstractTextOf (result : JVal) : JVal :=
  child (child (articleOf result) "Abstract") "AbstractText"

/-- The node `article.Journal.JournalIssue.PubDate`. -/
def pubDateNodeOf (result : JVal) : JVal :=
  child (child (child (articleOf result) "Journal") "JournalIssue") "PubDate"

/-- The mandatory nodes of the container, the ones lines 115-116, 167-168 and 172-174 read
without a guard: `MedlineCitation`, `Article`, `PMID`, `Journal`, `JournalIssue`,
`PubDate`, and `Keyword` under a `KeywordList` that holds a value. -/
def mandatoryPresent (t : JVal) : Bool :=
  !isNullish (citationOf t) && !isNullish (articleOf t) &&
  !isNullish (child (citationOf t) "PMID") &&
  !isNullish (child (articleOf t) "Journal") &&
  !isNullish (child (child (articleOf t) "Journal") "JournalIssue") &&
  !isNullish (pubDateNodeOf t) &&
  (!truthy (child (citationOf t) "KeywordList") ||
    !isNullish (child (child (citationOf t) "KeywordList") "Keyword"))

/-- The node at the end of a path, read with the total `child`. -/
def nodeAt : List String → JVal → JVal
  | [], t => t
  | k :: path, t => nodeAt path (child t k)

/-- The path of the `AbstractText` node. -/
def abstractTextPath : List String :=
  ["PubmedArticleSet", "PubmedArticle", "MedlineCitation", "Article", "Abstract", "AbstractText"]

/-- The path of the `Author` node. -/
def authorPath : List String :=
  ["PubmedArticleSet", "PubmedArticle", "MedlineCitation", "Article", "AuthorList", "Author"]

/-- The path of the `ArticleId` node. -/
def articleIdPath : List String :=
  ["PubmedArticleSet", "PubmedArticle", "PubmedData", "ArticleIdList", "ArticleId"]

/-- The path of the `Keyword` node. -/
def keywordPath : List String :=
  ["PubmedArticleSet", "PubmedArticle", "MedlineCitation", "KeywordList", "Keyword"]

/-! ## Reference definitions, written after the specification -/

/-- The first-match-wins policy of section 4.1: the first candidate that holds a value
(for text: a non-empty one) is taken, the fallback when there is none. -/
def firstMatch : List JVal → JVal → JVal
  | [], fallback => fallback
  | c :: cs, fallback => if truthy c = true then c else firstMatch cs fallback

/-- The test that the type attribute of an identifier entry is exactly `ty`. -/
def hasIdType (ty : String) (e : JVal) : Bool :=
  match child (child e "$") "IdType" with
  | str s => decide (s = ty)
  | _ => false

/-- The `doi` of a detail record after section 4.2: the text of the first identifier entry
whose type attribute is exactly `doi`, `null` when there is none. -/
def doiSpec (entries : List JVal) : JVal :=
  match entries.find? (hasIdType "doi") with
  | some e => child e "_"
  | none => null

/-- The rendering of one abstract section after section 4.2: label, colon, blank and text
for a labelled section, the bare text for an unlabelled one. -/
def renderSection : JVal → String
  | str text => text
  | s =>
    let label := textOf (child (child s "$") "Label")
    let text := textOf (child s "_")
    if label = "" then text else label ++ ": " ++ text

/-! ## Replacing a node of a tree -/

/-- The member list with the member `k` set to `v`. -/
def setMember (k : String) (v : JVal) : List (String × JVal) → List (String × JVal)
  | [] => [(k, v)]
  | (k1, w) :: ms => if k = k1 then (k1, v) :: ms else (k1, w) :: setMember k v ms

/-- The object with its member `k` set to `v`; a value that is not an object is left as it
is. -/
def setChild (k : String) (v : JVal) : JVal → JVal
  | obj ms => obj (setMember k v ms)
  | t => t

/-- The tree with the node at the end of `path` replaced by `v`. -/
def setPath : List String → JVal → JVal → JVal
  | [], v, _ => v
  | k :: path, v, t => setChild k (setPath path v (child t k)) t

/-! ## Failure kinds -/

/-- A computation whose only failure is the generic one. -/
def OnlyInternal {α : Type} (x : Except Failure α) : Prop :=
  ∀ e, x = .error e → e = .internal

/-! ## Sample inputs -/

/-- A summary mapping listed in another order than the identifiers are asked for. -/
def sampleResults : List (String × JVal) :=
  [("31", obj [("title", str "First"), ("elocationid", str "doi: 10.1/xyz"),
      ("authors", arr [obj [("name", str "Smith J")], obj [("name", str "Lee K")]]),
      ("fulljournalname", str "The Lancet"), ("source", str "Lancet"),
      ("pubdate", str "2020 Jan")]),
   ("7", obj [("title", str "Second"), ("elocationid", str "10.1/xyz"),
      ("source", str "BMJ")])]

/-- The parsed response with one article whose citation has the given members. -/
def treeOf (citation : List (String × JVal)) (setMembers : List (String × JVal)) : JVal :=
  obj [("PubmedArticleSet",
    obj [("PubmedArticle", obj (("MedlineCitation", obj citation) :: setMembers))])]

/-- A citation identifier node as the parser builds it for `<PMID Version="1">123</PMID>`. -/
def pmidNode : JVal :=
  obj [("_", str "123"), ("$", obj [("Version", str "1")])]

/-- A journal node with a title and a structured year. -/
def journalNode : JVal :=
  obj [("Title", str "Gut"),
    ("JournalIssue", obj [("PubDate", obj [("Year", str "2020")])])]

/-- A detail tree with the mandatory nodes and a title, extended by further members of the
`Article`, `MedlineCitation` and `PubmedArticle` nodes. -/
def detailTree (articleMembers citationMembers setMembers : List (String × JVal)) : JVal :=
  treeOf
    (("PMID", pmidNode) ::
      ("Article", obj (("Journal", journalNode) :: ("ArticleTitle", str "T") ::
        articleMembers)) :: citationMembers)
    setMembers

/-- An abstract section with a label, as the parser builds it for
`<AbstractText Label="Background">A</AbstractText>`. -/
def labelledSection : JVal :=
  obj [("_", str "A"), ("$", obj [("Label", str "Background")])]

/-- A labelled abstract section without text, as the parser builds it for
`<AbstractText Label="Background"></AbstractText>`: the text member is left out. -/
def labelOnlySection : JVal :=
  obj [("$", obj [("Label", str "Background")])]

/-- A labelled abstract section whose text member is the empty string. -/
def emptyTextSection : JVal :=
  obj [("_", str ""), ("$", obj [("Label", str "Background")])]

/-- A detail tree whose `AbstractText` node is `v`. -/
def abstractTree (v : JVal) : JVal :=
  detailTree [("Abstract", obj [("AbstractText", v)])] [] []

theorem bind_ok_iff {α β : Type} (x : Except Failure α) (f : α → Except Failure β) (b : β) :
    (x >>= f) = .ok b ↔ ∃ a, x = .ok a ∧ f a = .ok b := by
  cases x with
  | error e => simp [bind, Except.bind]
  | ok a => simp [bind, Except.bind]

theorem ok_bind {α β : Type} (a : α) (f : α → Except Failure β) :
    ((Except.ok a : Except Failure α) >>= f) = f a := rfl

theorem pure_eq_ok {α : Type} (a : α) : (pure a : Except Failure α) = .ok a := rfl

theorem getProp_ok {v : JVal} {k : String} {x : JVal} (h : getProp v k = .ok x) :
    x = child v k ∧ isNullish v = false := by
  cases v <;> simp_all [getProp, isNullish]

theorem getProp_of_not_nullish {v : JVal} (k : String) (h : isNullish v = false) :
    getProp v k = .ok (child v k) := by
  cases v <;> simp_all [getProp, isNullish]

theorem not_nullish_of_truthy {v : JVal} (h : truthy v = true) : isNullish v = false := by
  cases v <;> simp_all [truthy, isNullish]

theorem child_of_falsy {v : JVal} (k : String) (h : truthy v = false) :
    child v k = undefined := by
  cases v <;> simp_all [truthy, child]

theorem truthy_undefined : truthy undefined = false := rfl

theorem jsAnd_getProp (a : JVal) (k : String) :
    jsAnd a (getProp a k) = .ok (if truthy a = true then child a k else a) := by
  unfold jsAnd
  split
  · next h => exact getProp_of_not_nullish k (not_nullish_of_truthy h)
  · rfl

theorem jsOr_pure (a b : JVal) :
    jsOr a (pure b) = .ok (if truthy a = true then a else b) := by
  unfold jsOr
  split <;> rfl

/-- What a successful run of `normalizeDetail` has read and computed. -/
theorem normalizeDetail_ok {t : JVal} {d : ArticleDetail} (h : normalizeDetail t = .ok d) :
    truthy (articleSetOf t) = true ∧
    isNullish (citationOf t) = false ∧
    isNullish (articleOf t) = false ∧
    d.id = child (child (citationOf t) "PMID") "_" ∧
    abstractOf (articleOf t) = .ok d.abstract ∧
    (∃ authors, authorsOf (articleOf t) = .ok authors ∧
      d.authors = if ", ".intercalate authors ≠ "" then ", ".intercalate authors
        else "未知作者") ∧
    doiOf (articleSetOf t) = .ok d.doi ∧
    keywordsOf (citationOf t) = .ok d.keywords ∧
    d.url = "https://pubmed.ncbi.nlm.nih.gov/" ++ toStr d.id ++ "/" ∧
    isNullish (child (citationOf t) "PMID") = false ∧
    isNullish (child (articleOf t) "Journal") = false ∧
    isNullish (child (child (articleOf t) "Journal") "JournalIssue") = false ∧
    isNullish (pubDateNodeOf t) = false ∧
    d.title = firstMatch [child (articleOf t) "ArticleTitle"] (str "无标题") ∧
    d.journal = firstMatch [child (child (articleOf t) "Journal") "Title"] (str "未知期刊") ∧
    d.pubDate = firstMatch [child (pubDateNodeOf t) "Year",
      child (pubDateNodeOf t) "MedlineDate"] (str "未知日期") := by
  unfold normalizeDetail at h
  obtain ⟨root, h1, h⟩ := (bind_ok_iff _ _ _).1 h
  obtain ⟨set, h2, h⟩ := (bind_ok_iff _ _ _).1 h
  split at h
  · next hset =>
    obtain ⟨cit, h3, h⟩ := (bind_ok_iff _ _ _).1 h
    obtain ⟨art, h4, h⟩ := (bind_ok_iff _ _ _).1 h
    obtain ⟨pmidNode, h5, h⟩ := (bind_ok_iff _ _ _).1 h
    obtain ⟨pmid, h6, h⟩ := (bind_ok_iff _ _ _).1 h
    obtain ⟨abstract, h7, h⟩ := (bind_ok_iff _ _ _).1 h
    obtain ⟨authors, h8, h⟩ := (bind_ok_iff _ _ _).1 h
    obtain ⟨doi, h9, h⟩ := (bind_ok_iff _ _ _).1 h
    obtain ⟨articleTitle, h10, h⟩ := (bind_ok_iff _ _ _).1 h
    obtain ⟨title, h11, h⟩ := (bind_ok_iff _ _ _).1 h
    obtain ⟨journalNode, h12, h⟩ := (bind_ok_iff _ _ _).1 h
    obtain ⟨journalTitle, h13, h⟩ := (bind_ok_iff _ _ _).1 h
    obtain ⟨journal, h14, h⟩ := (bind_ok_iff _ _ _).1 h
    obtain ⟨issue, h15, h⟩ := (bind_ok_iff _ _ _).1 h
    obtain ⟨pubDateNode, h16, h⟩ := (bind_ok_iff _ _ _).1 h
    obtain ⟨year, h17, h⟩ := (bind_ok_iff _ _ _).1 h
    obtain ⟨pubDate, h18, h⟩ := (bind_ok_iff _ _ _).1 h
    obtain ⟨keywords, h19, h⟩ := (bind_ok_iff _ _ _).1 h
    have hd : d = _ := (Except.ok.inj h).symm
    obtain ⟨e1, -⟩ := getProp_ok h1
    obtain ⟨e2, -⟩ := getProp_ok h2
    obtain ⟨e3, -⟩ := getProp_ok h3
    obtain ⟨e4, n4⟩ := getProp_ok h4
    obtain ⟨e5, -⟩ := getProp_ok h5
    obtain ⟨e6, n6⟩ := getProp_ok h6
    obtain ⟨e10, n10⟩ := getProp_ok h10
    obtain ⟨e12, -⟩ := getProp_ok h12
    obtain ⟨e13, n13⟩ := getProp_ok h13
    obtain ⟨e15, -⟩ := getProp_ok h15
    obtain ⟨e16, n16⟩ := getProp_ok h16
    obtain ⟨e17, n17⟩ := getProp_ok h17
    have hs : set = articleSetOf t := by rw [e2, e1]; rfl
    have hc : cit = citationOf t := by rw [e3, hs]; rfl
    have ha : art = articleOf t := by rw [e4, hc]; rfl
    have hp : pubDateNode = pubDateNodeOf t := by rw [e16, e15, e12, ha]; rfl
    rw [jsOr_pure] at h11 h14
    have e11 := (Except.ok.inj h11).symm
    have e14 := (Except.ok.inj h14).symm
    have e18 : pubDate = firstMatch [child (pubDateNodeOf t) "Year",
        child (pubDateNodeOf t) "MedlineDate"] (str "未知日期") := by
      rw [getProp_of_not_nullish _ n17, ok_bind, jsOr_pure] at h18
      unfold jsOr at h18
      rw [e17, hp] at h18
      simp only [firstMatch]
      split at h18
      · next hy => rw [if_pos hy]; exact (Except.ok.inj h18).symm
      · next hy => rw [if_neg hy]; exact (Except.ok.inj h18).symm
    subst hd
    refine ⟨hs ▸ hset, hc ▸ n4, ha ▸ n10, ?_, ha ▸ h7, ⟨authors, ha ▸ h8, rfl⟩, hs ▸ h9,
      hc ▸ h19, rfl, ?_, ?_, ?_, hp ▸ n17, ?_, ?_, e18⟩
    · show pmid = _
      rw [e6, e5, hc]
    · rw [← hc, ← e5]; exact n6
    · rw [← ha, ← e12]; exact n13
    · rw [← ha, ← e12, ← e15]; exact n16
    · show title = _
      rw [e11, e10, ha]; rfl
    · show journal = _
      rw [e14, e13, e12, ha]; rfl
  · cases h

/-! ## Facts about `mapE` -/

theorem mapE_ok_of_forall {α β : Type} (f : α → Except Failure β) (g : α → β) :
    ∀ xs : List α, (∀ x ∈ xs, f x = .ok (g x)) → mapE f xs = .ok (xs.map g)
  | [], _ => rfl
  | x :: xs, h => by
    have hx : f x = .ok (g x) := h x (List.mem_cons_self x xs)
    have hxs : mapE f xs = .ok (xs.map g) :=
      mapE_ok_of_forall f g xs (fun y hy => h y (List.mem_cons_of_mem x hy))
    simp [mapE, hx, hxs]

theorem mapE_ok_forall₂ {α β : Type} (f : α → Except Failure β) :
    ∀ (xs : List α) (ys : List β), mapE f xs = .ok ys →
      List.Forall₂ (fun x y => f x = .ok y) xs ys
  | [], ys, h => by
    cases ys with
    | nil => exact List.Forall₂.nil
    | cons y ys => simp [mapE] at h
  | x :: xs, ys, h => by
    unfold mapE at h
    split at h
    · cases h
    · next y hy =>
      split at h
      · cases h
      · next ys1 hys =>
        cases h
        exact List.Forall₂.cons hy (mapE_ok_forall₂ f xs ys1 hys)

theorem mapE_isOk_iff {α β : Type} (f : α → Except Failure β) :
    ∀ xs : List α, (∃ ys, mapE f xs = .ok ys) ↔ ∀ x ∈ xs, ∃ y, f x = .ok y
  | [] => by simp [mapE]
  | x :: xs => by
    have ih := mapE_isOk_iff f xs
    constructor
    · rintro ⟨ys, h⟩
      have h2 := mapE_ok_forall₂ f (x :: xs) ys h
      cases h2 with
      | cons hy hrest =>
        intro z hz
        rcases List.mem_cons.1 hz with rfl | hz
        · exact ⟨_, hy⟩
        · exact List.Forall₂.rec (motive := fun l1 l2 _ => ∀ z ∈ l1, ∃ y, f z = .ok y)
            (by intro z hz; cases hz)
            (by
              intro a b l1 l2 hab _ ih1 z hz
              rcases List.mem_cons.1 hz with rfl | hz
              · exact ⟨b, hab⟩
              · exact ih1 z hz) hrest z hz
    · intro h
      obtain ⟨y, hy⟩ := h x (List.mem_cons_self x xs)
      obtain ⟨ys, hys⟩ := ih.2 (fun z hz => h z (List.mem_cons_of_mem x hz))
      exact ⟨y :: ys, by simp [mapE, hy, hys]⟩

/-! ## The search handler -/

theorem summaryOf_ok {results : List (String × JVal)} {id : String} {s : ArticleSummary}
    (h : summaryOf results id = .ok s) :
    s.id = id ∧ s.url = "https://pubmed.ncbi.nlm.nih.gov/" ++ id ++ "/" ∧
      isNullish (member results id) = false := by
  unfold summaryOf at h
  obtain ⟨title, h1, h⟩ := (bind_ok_iff _ _ _).1 h
  obtain ⟨authors, h2, h⟩ := (bind_ok_iff _ _ _).1 h
  obtain ⟨journal, h3, h⟩ := (bind_ok_iff _ _ _).1 h
  obtain ⟨pubdate, h4, h⟩ := (bind_ok_iff _ _ _).1 h
  obtain ⟨pubDate, h5, h⟩ := (bind_ok_iff _ _ _).1 h
  obtain ⟨abstract, h6, h⟩ := (bind_ok_iff _ _ _).1 h
  obtain ⟨abstract1, h7, h⟩ := (bind_ok_iff _ _ _).1 h
  obtain ⟨doi, h8, h⟩ := (bind_ok_iff _ _ _).1 h
  have hs : s = _ := (Except.ok.inj h).symm
  subst hs
  exact ⟨rfl, rfl, (getProp_ok h1).2⟩

theorem normalizeSearch_ok {ids : List String} {results : List (String × JVal)}
    {out : List ArticleSummary} (h : normalizeSearch ids results = .ok out) :
    List.Forall₂ (fun id s => summaryOf results id = .ok s) ids out := by
  unfold normalizeSearch at h
  split at h
  · next he =>
    cases h
    have : ids = [] := by simpa using he
    subst this
    exact List.Forall₂.nil
  · exact mapE_ok_forall₂ _ ids out h

theorem forall₂_summary {results : List (String × JVal)} :
    ∀ {ids : List String} {out : List ArticleSummary},
      List.Forall₂ (fun id s => summaryOf results id = .ok s) ids out →
      out.map (fun s => s.id) = ids ∧
        ∀ s ∈ out, s.url = "https://pubmed.ncbi.nlm.nih.gov/" ++ s.id ++ "/"
  | _, _, .nil => ⟨rfl, fun s hs => by cases hs⟩
  | _, _, .cons hab hrest => by
    obtain ⟨h1, h2⟩ := forall₂_summary hrest
    obtain ⟨e1, e2, -⟩ := summaryOf_ok hab
    refine ⟨by simp [e1, h1], ?_⟩
    intro s hs
    rcases List.mem_cons.1 hs with rfl | hs
    · rw [e2, e1]
    · exact h2 s hs

theorem onlyInternal_internal {α : Type} :
    OnlyInternal (Except.error Failure.internal : Except Failure α) := by
  intro e h
  cases h
  rfl

theorem noNullish_not_nullish {v : JVal} (h : noNullish v = true) : isNullish v = false := by
  cases v <;> simp_all [noNullish, isNullish]

theorem okNode_present {v : JVal} (h : okNode v) (hp : isNullish v = false) :
    noNullish v = true := by
  rcases h with rfl | h
  · cases hp
  · exact h

theorem okNode_member (k : String) :
    ∀ ms : List (String × JVal), noNullishMembers ms = true → okNode (member ms k)
  | [], _ => Or.inl rfl
  | (k1, v) :: ms, h => by
    have hv : noNullish v = true ∧ noNullishMembers ms = true := by
      simpa [noNullishMembers] using h
    by_cases hk : k = k1
    · subst hk
      right
      simpa [member, List.lookup] using hv.1
    · have ih := okNode_member k ms hv.2
      have hb : (k == k1) = false := by simpa using hk
      simpa [member, List.lookup, hb] using ih

theorem okNode_child {v : JVal} (k : String) (h : okNode v) : okNode (child v k) := by
  rcases h with rfl | h
  · exact Or.inl rfl
  · cases v with
    | obj ms => exact okNode_member k ms (by simpa [noNullish] using h)
    | _ => exact Or.inl rfl

theorem noNullish_of_mem :
    ∀ xs : List JVal, noNullishList xs = true → ∀ x ∈ xs, noNullish x = true
  | [], _, x, hx => by cases hx
  | y :: ys, h, x, hx => by
    have hy : noNullish y = true ∧ noNullishList ys = true := by
      simpa [noNullishList] using h
    rcases List.mem_cons.1 hx with rfl | hx
    · exact hy.1
    · exact noNullish_of_mem ys hy.2 x hx

theorem okNode_variantList {v : JVal} (h : okNode v) :
    ∀ x ∈ variantList v, isNullish x = false := by
  intro x hx
  rcases h with rfl | h
  · cases hx
  · cases v with
    | arr xs =>
      exact noNullish_not_nullish (noNullish_of_mem xs (by simpa [noNullish] using h) x hx)
    | undefined => cases hx
    | _ =>
      simp only [variantList, List.mem_singleton] at hx
      subst hx
      first | rfl | exact noNullish_not_nullish h

/-! ## The extractors of the article handler in closed form -/

theorem abstractOf_eq (art : JVal) (h : isNullish art = false) :
    abstractOf art =
      if truthy (child (child art "Abstract") "AbstractText") = true then
        if isArray (child (child art "Abstract") "AbstractText") = true then
          arrayMap (child (child art "Abstract") "AbstractText") sectionText >>=
            fun sections => pure (str (joinWith "\n" sections))
        else pure (child (child art "Abstract") "AbstractText")
      else pure (str "无摘要") := by
  unfold abstractOf
  rw [getProp_of_not_nullish _ h, ok_bind, jsAnd_getProp, ok_bind]
  by_cases hA : truthy (child art "Abstract") = true
  · rw [if_pos hA]
  · have hA2 : truthy (child art "Abstract") = false := by simpa using hA
    rw [if_neg hA, if_neg hA, child_of_falsy "AbstractText" hA2]
    rfl

theorem authorsOf_form (art : JVal) (h : isNullish art = false) :
    authorsOf art =
      if truthy (child (child art "AuthorList") "Author") = true then
        if isArray (child (child art "AuthorList") "Author") = true then
          arrayMap (child (child art "AuthorList") "Author") authorText
        else authorText (child (child art "AuthorList") "Author") >>= fun one => pure [one]
      else pure [] := by
  unfold authorsOf
  rw [getProp_of_not_nullish _ h, ok_bind, jsAnd_getProp, ok_bind]
  by_cases hA : truthy (child art "AuthorList") = true
  · rw [if_pos hA]
  · have hA2 : truthy (child art "AuthorList") = false := by simpa using hA
    rw [if_neg hA, if_neg hA, child_of_falsy "Author" hA2]
    rfl

theorem sectionText_total (s : JVal) (h : isNullish s = false) :
    ∃ r, sectionText s = .ok r := by
  unfold sectionText
  split
  · rw [getProp_of_not_nullish _ h, ok_bind]
    split
    · rw [getProp_of_not_nullish _ h, ok_bind, jsAnd_getProp, ok_bind]
      exact ⟨_, rfl⟩
    · exact ⟨_, rfl⟩
  · exact ⟨_, rfl⟩

theorem authorText_total (a : JVal) (h : isNullish a = false) :
    ∃ r, authorText a = .ok r := by
  unfold authorText
  rw [getProp_of_not_nullish _ h, ok_bind, jsOr_pure, ok_bind, getProp_of_not_nullish _ h,
    ok_bind, jsOr_pure, ok_bind]
  exact ⟨_, rfl⟩

theorem authorsOf_total (art : JVal) (h : noNullish art = true) :
    ∃ r, authorsOf art = .ok r := by
  have hok : okNode (child (child art "AuthorList") "Author") :=
    okNode_child _ (okNode_child _ (Or.inr h))
  rw [authorsOf_form art (noNullish_not_nullish h)]
  split
  · next ht =>
    split
    · cases hc : child (child art "AuthorList") "Author" with
      | arr xs =>
        rw [hc] at hok
        exact (mapE_isOk_iff _ xs).2 (fun a ha =>
          authorText_total a (okNode_variantList hok a ha))
      | _ => simp_all [isArray]
    · obtain ⟨r, hr⟩ := authorText_total _ (not_nullish_of_truthy ht)
      rw [hr]
      exact ⟨_, rfl⟩
  · exact ⟨_, rfl⟩

theorem abstractOf_total (art : JVal) (h : noNullish art = true) :
    ∃ r, abstractOf art = .ok r := by
  have hok : okNode (child (child art "Abstract") "AbstractText") :=
    okNode_child _ (okNode_child _ (Or.inr h))
  rw [abstractOf_eq art (noNullish_not_nullish h)]
  split
  · split
    · cases hc : child (child art "Abstract") "AbstractText" with
      | arr xs =>
        rw [hc] at hok
        obtain ⟨ys, hys⟩ := (mapE_isOk_iff sectionText xs).2 (fun a ha =>
          sectionText_total a (okNode_variantList hok a ha))
        simp only [arrayMap, hys, ok_bind]
        exact ⟨_, rfl⟩
      | _ => simp_all [isArray]
    · exact ⟨_, rfl⟩
  · exact ⟨_, rfl⟩

theorem isDoiId_eq (e : JVal) (h : isNullish e = false) :
    isDoiId e = .ok (hasIdType "doi" e) := by
  unfold isDoiId
  rw [getProp_of_not_nullish _ h, ok_bind]
  by_cases hA : truthy (child e "$") = true
  · rw [if_pos hA, getProp_of_not_nullish _ (not_nullish_of_truthy hA), ok_bind]
    rfl
  · have hA2 : truthy (child e "$") = false := by simpa using hA
    rw [if_neg hA]
    simp only [hasIdType, child_of_falsy "IdType" hA2]
    rfl

theorem findE_isDoiId :
    ∀ xs : List JVal, (∀ e ∈ xs, isNullish e = false) →
      findE isDoiId xs = .ok ((xs.find? (hasIdType "doi")).getD undefined)
  | [], _ => rfl
  | x :: xs, h => by
    have ih := findE_isDoiId xs (fun e he => h e (List.mem_cons_of_mem x he))
    unfold findE
    rw [isDoiId_eq x (h x (List.mem_cons_self x xs))]
    cases hx : hasIdType "doi" x with
    | true => simp [List.find?, hx]
    | false => simp [List.find?, hx, ih]

theorem hasIdType_obj {e : JVal} (h : hasIdType "doi" e = true) : isObj e = true := by
  cases e <;> simp_all [hasIdType, child, isObj]

theorem doiOf_form (set : JVal) (h : isNullish set = false) :
    doiOf set =
      if truthy (child (child (child set "PubmedData") "ArticleIdList") "ArticleId") = true
      then
        findE isDoiId
          (match child (child (child set "PubmedData") "ArticleIdList") "ArticleId" with
            | arr xs => xs
            | x => [x]) >>=
          fun doiObject => if truthy doiObject = true then getProp doiObject "_" else pure null
      else pure null := by
  unfold doiOf
  rw [getProp_of_not_nullish _ h, ok_bind, jsAnd_getProp, ok_bind, jsAnd_getProp, ok_bind]
  by_cases hA : truthy (child set "PubmedData") = true
  · rw [if_pos hA]
    by_cases hB : truthy (child (child set "PubmedData") "ArticleIdList") = true
    · rw [if_pos hB]
    · have hB2 : truthy (child (child set "PubmedData") "ArticleIdList") = false := by
        simpa using hB
      rw [if_neg hB, if_neg hB, child_of_falsy "ArticleId" hB2]
      rfl
  · have hA2 : truthy (child set "PubmedData") = false := by simpa using hA
    rw [if_neg hA, if_neg hA, if_neg hA, child_of_falsy "ArticleIdList" hA2]
    rfl

theorem doiOf_eq (set : JVal) (h : isNullish set = false)
    (hs : ∀ e ∈ variantList (child (child (child set "PubmedData") "ArticleIdList") "ArticleId"),
      isNullish e = false) :
    doiOf set = .ok (doiSpec
      (variantList (child (child (child set "PubmedData") "ArticleIdList") "ArticleId"))) := by
  rw [doiOf_form set h]
  have hfound : ∀ xs : List JVal, (∀ e ∈ xs, isNullish e = false) →
      (findE isDoiId xs >>= fun doiObject =>
        if truthy doiObject = true then getProp doiObject "_" else pure null) =
      .ok (doiSpec xs) := by
    intro xs hxs
    rw [findE_isDoiId xs hxs, ok_bind]
    unfold doiSpec
    cases hf : xs.find? (hasIdType "doi") with
    | none => rfl
    | some e =>
      have hobj : isObj e = true := hasIdType_obj (List.find?_some hf)
      cases e <;> simp_all [isObj]
      rfl
  have hnone : ∀ x : JVal, truthy x = false → isNullish x = false →
      doiSpec [x] = null := by
    intro x hx hn
    cases x <;> simp_all [truthy, isNullish] <;> rfl
  cases hx : child (child (child set "PubmedData") "ArticleIdList") "ArticleId" with
  | arr xs =>
    rw [hx] at hs
    simp only [truthy, if_true, variantList]
    exact hfound xs hs
  | undefined => rfl
  | null =>
    have := hs (child (child (child set "PubmedData") "ArticleIdList") "ArticleId")
      (by rw [hx]; simp [variantList])
    rw [hx] at this
    cases this
  | obj ms =>
    rw [hx] at hs
    simp only [truthy, if_true, variantList]
    exact hfound [obj ms] hs
  | str s =>
    rw [hx] at hs
    by_cases ht : truthy (str s) = true
    · rw [if_pos ht]
      exact hfound [str s] hs
    · rw [if_neg ht]
      exact congrArg Except.ok (hnone (str s) (by simpa using ht) rfl).symm
  | num n =>
    rw [hx] at hs
    by_cases ht : truthy (num n) = true
    · rw [if_pos ht]
      exact hfound [num n] hs
    · rw [if_neg ht]
      exact congrArg Except.ok (hnone (num n) (by simpa using ht) rfl).symm
  | bool b =>
    rw [hx] at hs
    by_cases ht : truthy (JVal.bool b) = true
    · rw [if_pos ht]
      exact hfound [JVal.bool b] hs
    · rw [if_neg ht]
      exact congrArg Except.ok (hnone (JVal.bool b) (by simpa using ht) rfl).symm

theorem doiOf_total (set : JVal) (h : noNullish set = true) : ∃ r, doiOf set = .ok r :=
  ⟨_, doiOf_eq set (noNullish_not_nullish h)
    (okNode_variantList (okNode_child _ (okNode_child _ (okNode_child _ (Or.inr h)))))⟩

theorem keywordsOf_form (cit : JVal) (h : isNullish cit = false) :
    keywordsOf cit =
      if truthy (child cit "KeywordList") = true then
        if isArray (child (child cit "KeywordList") "Keyword") = true then
          arrayMap (child (child cit "KeywordList") "Keyword") (fun k => getProp k "_")
        else getProp (child (child cit "KeywordList") "Keyword") "_" >>= fun one => pure [one]
      else pure [] := by
  unfold keywordsOf
  rw [getProp_of_not_nullish _ h, ok_bind]
  by_cases hA : truthy (child cit "KeywordList") = true
  · rw [if_pos hA, if_pos hA, getProp_of_not_nullish _ (not_nullish_of_truthy hA), ok_bind]
  · rw [if_neg hA, if_neg hA]

theorem keywordsOf_isOk_iff (cit : JVal) (h : noNullish cit = true) :
    (∃ r, keywordsOf cit = .ok r) ↔
      (truthy (child cit "KeywordList") = true →
        isNullish (child (child cit "KeywordList") "Keyword") = false) := by
  have hok : okNode (child (child cit "KeywordList") "Keyword") :=
    okNode_child _ (okNode_child _ (Or.inr h))
  rw [keywordsOf_form cit (noNullish_not_nullish h)]
  by_cases hA : truthy (child cit "KeywordList") = true
  · rw [if_pos hA]
    cases hc : child (child cit "KeywordList") "Keyword" with
    | arr xs =>
      rw [hc] at hok
      simp only [isArray, if_true, arrayMap, isNullish]
      have := (mapE_isOk_iff (fun k => getProp k "_") xs).2 (fun a ha =>
        ⟨_, getProp_of_not_nullish "_" (okNode_variantList hok a ha)⟩)
      exact ⟨fun _ _ => trivial, fun _ => this⟩
    | undefined => simp [isArray, getProp, isNullish, hA, bind, Except.bind]
    | null => simp [isArray, getProp, isNullish, hA, bind, Except.bind]
    | _ => simp [isArray, getProp, isNullish, bind, Except.bind, pure, Except.pure]
  · rw [if_neg hA]
    exact ⟨fun _ hk => absurd hk hA, fun _ => ⟨_, rfl⟩⟩

/-! ## The article handler: outcomes -/

theorem not_nullish_of_child_truthy {v : JVal} {k : String} (h : truthy (child v k) = true) :
    isNullish v = false := by
  cases v <;> simp_all [child, truthy, isNullish]

theorem jsOr_total {a : JVal} {b : Except Failure JVal} (hb : ∃ r, b = .ok r) :
    ∃ r, jsOr a b = .ok r := by
  unfold jsOr
  split
  · exact ⟨_, rfl⟩
  · exact hb

theorem pubDate_total (p : JVal) (h : isNullish p = false) (y : JVal) :
    ∃ r, jsOr y (getProp p "MedlineDate" >>=
      fun medlineDate => jsOr medlineDate (pure (str "未知日期"))) = .ok r := by
  apply jsOr_total
  rw [getProp_of_not_nullish _ h, ok_bind, jsOr_pure]
  exact ⟨_, rfl⟩

theorem normalizeDetail_isOk_iff (t : JVal) (ht : noNullish t = true) :
    (∃ d, normalizeDetail t = .ok d) ↔
      truthy (articleSetOf t) = true ∧ mandatoryPresent t = true := by
  have hroot : okNode (child t "PubmedArticleSet") := okNode_child _ (Or.inr ht)
  have hset : okNode (articleSetOf t) := okNode_child _ hroot
  have hcit : okNode (citationOf t) := okNode_child _ hset
  have hart : okNode (articleOf t) := okNode_child _ hcit
  constructor
  · rintro ⟨d, hd⟩
    obtain ⟨h1, h2, h3, -, -, -, -, hk, -, h4, h5, h6, h7, -⟩ := normalizeDetail_ok hd
    have hkw := (keywordsOf_isOk_iff _ (okNode_present hcit h2)).1 ⟨_, hk⟩
    refine ⟨h1, ?_⟩
    simp only [mandatoryPresent, h2, h3, h4, h5, h6, h7, Bool.not_false, Bool.true_and,
      Bool.or_eq_true, Bool.not_eq_true']
    by_cases hkl : truthy (child (citationOf t) "KeywordList") = true
    · exact Or.inr (hkw hkl)
    · exact Or.inl (by simpa using hkl)
  · rintro ⟨h1, hm⟩
    simp only [mandatoryPresent, Bool.and_eq_true, Bool.not_eq_true', Bool.or_eq_true] at hm
    obtain ⟨⟨⟨⟨⟨⟨h2, h3⟩, h4⟩, h5⟩, h6⟩, h7⟩, h8⟩ := hm
    have nset : noNullish (articleSetOf t) = true :=
      okNode_present hset (not_nullish_of_truthy h1)
    have ncit : noNullish (citationOf t) = true := okNode_present hcit h2
    have nart : noNullish (articleOf t) = true := okNode_present hart h3
    obtain ⟨a, ha⟩ := abstractOf_total _ nart
    obtain ⟨au, hau⟩ := authorsOf_total _ nart
    obtain ⟨x, hx⟩ := doiOf_total _ nset
    obtain ⟨ks, hks⟩ := (keywordsOf_isOk_iff _ ncit).2 (by
      intro hkl
      rcases h8 with h8 | h8
      · rw [h8] at hkl
        cases hkl
      · exact h8)
    have nroot : isNullish (child t "PubmedArticleSet") = false :=
      not_nullish_of_child_truthy h1
    simp only [articleSetOf, citationOf, articleOf, pubDateNodeOf] at *
    unfold normalizeDetail
    rw [getProp_of_not_nullish _ (noNullish_not_nullish ht), ok_bind,
      getProp_of_not_nullish _ nroot, ok_bind, if_pos h1,
      getProp_of_not_nullish _ (not_nullish_of_truthy h1), ok_bind,
      getProp_of_not_nullish _ h2, ok_bind, getProp_of_not_nullish _ h2, ok_bind,
      getProp_of_not_nullish _ h4, ok_bind, ha, ok_bind, hau, ok_bind, hx, ok_bind,
      getProp_of_not_nullish _ h3, ok_bind, jsOr_pure, ok_bind,
      getProp_of_not_nullish _ h3, ok_bind, getProp_of_not_nullish _ h5, ok_bind,
      jsOr_pure, ok_bind, getProp_of_not_nullish _ h5, ok_bind,
      getProp_of_not_nullish _ h6, ok_bind, getProp_of_not_nullish _ h7, ok_bind]
    obtain ⟨pd, hpd⟩ := pubDate_total _ h7 (child (child (child (child (child (child (child
      (child t "PubmedArticleSet") "PubmedArticle") "MedlineCitation") "Article") "Journal")
      "JournalIssue") "PubDate") "Year")
    rw [hpd, ok_bind, hks, ok_bind]
    exact ⟨_, rfl⟩

/-- C10: every summary returned by `normalizeSearch` carries the identifier it was asked
for and the address built from it, and every detail record returned by `normalizeDetail`
carries as `id` the text content of the `PMID` node of the tree and the address built from
that `id`; the requested identifier does not enter the detail record. -/
theorem url_follows_id (ids : List String) (results : List (String × JVal))
    (out : List ArticleSummary) (t : JVal) (d : ArticleDetail)
    (hs : normalizeSearch ids results = .ok out) (hd : normalizeDetail t = .ok d) :
    out.map (fun s => s.id) = ids ∧
    (∀ s ∈ out, s.url = "https://pubmed.ncbi.nlm.nih.gov/" ++ s.id ++ "/") ∧
    d.id = child (child (citationOf t) "PMID") "_" ∧
    d.url = "https://pubmed.ncbi.nlm.nih.gov/" ++ toStr d.id ++ "/" ∧
    (∀ pmid : String, d.id = str pmid →
      d.url = "https://pubmed.ncbi.nlm.nih.gov/" ++ pmid ++ "/") ∧
    ∀ id1 id2 : String, articleRoute id1 t = articleRoute id2 t := by
  obtain ⟨h1, h2⟩ := forall₂_summary (normalizeSearch_ok hs)
  obtain ⟨-, -, -, hid, -, -, -, -, hurl, -⟩ := normalizeDetail_ok hd
  refine ⟨h1, h2, hid, hurl, ?_, fun _ _ => rfl⟩
  intro pmid hp
  rw [hurl, hp]
  rfl

theorem url_follows_id_witness :
    ∃ out d, normalizeSearch ["7", "31"] sampleResults = .ok out ∧
      normalizeDetail (detailTree [] [] []) = .ok d ∧
      out.map (fun s => s.url) =
        ["https://pubmed.ncbi.nlm.nih.gov/7/", "https://pubmed.ncbi.nlm.nih.gov/31/"] ∧
      d.id = str "123" ∧ d.url = "https://pubmed.ncbi.nlm.nih.gov/123/" := by
  obtain ⟨out, hout⟩ : ∃ out, normalizeSearch ["7", "31"] sampleResults = .ok out :=
    ⟨_, rfl⟩
  obtain ⟨d, hd⟩ := (normalizeDetail_isOk_iff (detailTree [] [] []) (by decide)).2
    ⟨by decide, by decide⟩
  obtain ⟨h1, h2, h3, -, h5, -⟩ := url_follows_id _ _ out _ d hout hd
  refine ⟨out, d, hout, hd, ?_, h3, h5 "123" h3⟩
  have : out.map (fun s => s.url) =
      (out.map (fun s => s.id)).map (fun i => "https://pubmed.ncbi.nlm.nih.gov/" ++ i ++ "/") := by
    rw [List.map_map]
    exact List.map_congr_left (fun s hs => h2 s hs)
  rw [this, h1]
  rfl

/-! ## The article handler: a single abstract section and a section without text -/

/-- C3: a single labelled `AbstractText` is copied into `abstract` as the raw node, while
the list holding that one section is rendered as label, colon, text: the two shapes are
not treated alike. -/
theorem single_labelled_abstract_differs :
    (normalizeDetail (abstractTree labelledSection)).toOption.map (fun d => d.abstract) =
      some labelledSection ∧
    (normalizeDetail (abstractTree (arr [labelledSection]))).toOption.map
      (fun d => d.abstract) = some (str "Background: A") ∧
    normalizeDetail (abstractTree (arr [labelledSection])) ≠
      normalizeDetail (abstractTree labelledSection) := by
  refine ⟨rfl, rfl, ?_⟩
  intro h
  have h2 := congrArg (fun r => r.toOption.map (fun d => d.abstract)) h
  have h3 : some (str "Background: A") = some labelledSection := h2
  simp [labelledSection] at h3

/-- C6: in a list of sections, a labelled section without text is not rendered as label,
colon and empty text: the node itself goes into the join and comes out as the string
conversion of an object. A list of sections with text is rendered as documented. -/
theorem empty_text_section_rendering :
    (normalizeDetail (abstractTree (arr [emptyTextSection, str "B"]))).toOption.map
      (fun d => d.abstract) = some (str "[object Object]\nB") ∧
    (normalizeDetail (abstractTree (arr [labelOnlySection, str "B"]))).toOption.map
      (fun d => d.abstract) = some (str "[object Object]\nB") ∧
    (normalizeDetail (abstractTree (arr [emptyTextSection, str "B"]))).toOption.map
      (fun d => d.abstract) ≠ some (str "Background: \nB") ∧
    (normalizeDetail (abstractTree (arr [labelledSection, str "B"]))).toOption.map
      (fun d => d.abstract) = some (str "Background: A\nB") := by
  refine ⟨rfl, rfl, ?_, rfl⟩
  intro h
  have h2 : some (str "[object Object]\nB") = some (str "Background: \nB") := h
  simp at h2

/-! ## Further facts: sections with text, and the shapes that are read alike -/

theorem itemStrs_map_str {α : Type} (f : α → String) :
    ∀ xs : List α, itemStrs (xs.map (fun x => str (f x))) = xs.map f
  | [] => rfl
  | x :: xs => by
    simp [itemStrs, toStr, itemStrs_map_str f xs]

theorem sectionText_eq (s : JVal) (h : isSection s = true) :
    sectionText s = .ok (str (renderSection s)) := by
  cases s with
  | str text => rfl
  | obj ms =>
    have hn : isNullish (obj ms) = false := rfl
    cases ht : member ms "_" with
    | str text =>
      have hp : text ≠ "" ∧ textOrAbsent (child (member ms "$") "Label") = true := by
        simpa [isSection, ht] using h
      have htext : truthy (child (obj ms) "_") = true := by
        simpa [child, ht, truthy] using hp.1
      have hobj : isObjectType (obj ms) = true := rfl
      unfold sectionText
      rw [if_pos hobj, getProp_of_not_nullish _ hn, ok_bind, if_pos htext,
        getProp_of_not_nullish _ hn, ok_bind, jsAnd_getProp, ok_bind]
      simp only [child, renderSection, ht, toStr, textOf, pure_eq_ok]
      cases hs : member ms "$" with
      | obj attrs =>
        simp only [truthy, if_true, child]
        rw [hs] at hp
        cases hl : member attrs "Label" with
        | str label =>
          by_cases he : label = ""
          · simp [he, truthy, textOf]
          · simp [he, truthy, textOf, toStr]
        | undefined => simp [truthy, textOf]
        | _ => simp [child, hl, textOrAbsent] at hp
      | _ => simp [truthy, textOf, child] <;> split <;> simp_all [truthy, textOf, child]
    | _ => simp [isSection, ht] at h
  | _ => simp [isSection] at h

/-- A list of abstract sections that are bare texts or carry a non-empty text is rendered
as documented, each labelled section as label, colon, blank and text, each unlabelled one as
its bare text, joined with a line feed and in order. -/
theorem abstract_sections_with_text (t : JVal) (d : ArticleDetail) (xs : List JVal)
    (h : normalizeDetail t = .ok d) (hx : abstractTextOf t = arr xs)
    (hs : ∀ s ∈ xs, isSection s = true) :
    d.abstract = str ("\n".intercalate (xs.map renderSection)) := by
  obtain ⟨-, -, h3, -, habs, -⟩ := normalizeDetail_ok h
  have hx2 : child (child (articleOf t) "Abstract") "AbstractText" = arr xs := hx
  rw [abstractOf_eq _ h3, hx2] at habs
  simp only [truthy, if_true, isArray, arrayMap] at habs
  rw [mapE_ok_of_forall sectionText (fun s => str (renderSection s)) xs
    (fun s hmem => sectionText_eq s (hs s hmem)), ok_bind] at habs
  have := (Except.ok.inj habs).symm
  rw [this]
  simp only [joinWith, itemStrs_map_str]

theorem member_setMember_self (k : String) (v : JVal) :
    ∀ ms : List (String × JVal), member (setMember k v ms) k = v
  | [] => by simp [setMember, member, List.lookup]
  | (k1, w) :: ms => by
    by_cases hk : k = k1
    · subst hk
      simp [setMember, member, List.lookup]
    · have hb : (k == k1) = false := by simpa using hk
      have ih := member_setMember_self k v ms
      simp only [member] at ih
      simp [setMember, hk, member, List.lookup, hb, ih]

theorem member_setMember_other (k k2 : String) (v : JVal) (h : k2 ≠ k) :
    ∀ ms : List (String × JVal), member (setMember k v ms) k2 = member ms k2
  | [] => by
    have hb : (k2 == k) = false := by simpa using h
    simp [setMember, member, List.lookup, hb]
  | (k1, w) :: ms => by
    have ih := member_setMember_other k k2 v h ms
    simp only [member] at ih
    by_cases hk : k = k1
    · subst hk
      have hb : (k2 == k) = false := by simpa using h
      simp [setMember, member, List.lookup, hb]
    · by_cases h2 : k2 = k1
      · subst h2
        simp [setMember, hk, member, List.lookup]
      · have hb : (k2 == k1) = false := by simpa using h2
        simp [setMember, hk, member, List.lookup, hb, ih]

theorem isObj_of_child {t : JVal} {k : String} (h : isNullish (child t k) = false) :
    isObj t = true := by
  cases t <;> simp_all [child, isNullish, isObj]

theorem child_setPath_self (k : String) (path : List String) (v t : JVal)
    (h : isObj t = true) : child (setPath (k :: path) v t) k = setPath path v (child t k) := by
  cases t with
  | obj ms => simp [setPath, setChild, child, member_setMember_self]
  | _ => simp [isObj] at h

theorem child_setPath_other (k k2 : String) (path : List String) (v t : JVal) (h : k2 ≠ k) :
    child (setPath (k :: path) v t) k2 = child t k2 := by
  cases t <;> simp [setPath, setChild, child, member_setMember_other k k2 _ h]

theorem isNullish_setPath (k : String) (path : List String) (v t : JVal) :
    isNullish (setPath (k :: path) v t) = isNullish t := by
  cases t <;> rfl

theorem truthy_setPath (k : String) (path : List String) (v t : JVal) :
    truthy (setPath (k :: path) v t) = truthy t := by
  cases t <;> rfl

theorem getProp_nullish {v : JVal} (k : String) (h : isNullish v = true) :
    getProp v k = .error .internal := by
  cases v <;> simp_all [getProp, isNullish]

theorem error_bind {α β : Type} (e : Failure) (f : α → Except Failure β) :
    ((Except.error e : Except Failure α) >>= f) = .error e := rfl

/-- Two trees on which the handler reads the same values give the same outcome. -/
theorem normalizeDetail_congr (t1 t2 : JVal)
    (ht : isNullish t1 = isNullish t2)
    (hroot : isNullish (child t1 "PubmedArticleSet") = isNullish (child t2 "PubmedArticleSet"))
    (hset : truthy (articleSetOf t1) = truthy (articleSetOf t2))
    (hcit : isNullish (citationOf t1) = isNullish (citationOf t2))
    (hpmid : child (citationOf t1) "PMID" = child (citationOf t2) "PMID")
    (habs : abstractOf (articleOf t1) = abstractOf (articleOf t2))
    (hauth : authorsOf (articleOf t1) = authorsOf (articleOf t2))
    (hdoi : doiOf (articleSetOf t1) = doiOf (articleSetOf t2))
    (hart : isNullish (articleOf t1) = isNullish (articleOf t2))
    (htitle : child (articleOf t1) "ArticleTitle" = child (articleOf t2) "ArticleTitle")
    (hjournal : child (articleOf t1) "Journal" = child (articleOf t2) "Journal")
    (hkw : keywordsOf (citationOf t1) = keywordsOf (citationOf t2)) :
    normalizeDetail t1 = normalizeDetail t2 := by
  simp only [articleSetOf, citationOf, articleOf] at *
  unfold normalizeDetail
  cases h1 : isNullish t1 with
  | true => rw [getProp_nullish _ h1, getProp_nullish _ (ht.symm.trans h1)]
  | false =>
    rw [getProp_of_not_nullish _ h1, getProp_of_not_nullish _ (ht.symm.trans h1), ok_bind,
      ok_bind]
    cases h2 : isNullish (child t1 "PubmedArticleSet") with
    | true => rw [getProp_nullish _ h2, getProp_nullish _ (hroot.symm.trans h2)]
    | false =>
      rw [getProp_of_not_nullish _ h2, getProp_of_not_nullish _ (hroot.symm.trans h2),
        ok_bind, ok_bind]
      by_cases h3 : truthy (child (child t1 "PubmedArticleSet") "PubmedArticle") = true
      · have h3b := hset.symm.trans h3
        rw [if_pos h3, if_pos h3b, getProp_of_not_nullish _ (not_nullish_of_truthy h3),
          getProp_of_not_nullish _ (not_nullish_of_truthy h3b), ok_bind, ok_bind]
        cases h4 : isNullish (child (child (child t1 "PubmedArticleSet") "PubmedArticle")
            "MedlineCitation") with
        | true =>
          have h4b := hcit.symm.trans h4
          simp only [getProp_nullish _ h4, getProp_nullish _ h4b, error_bind]
        | false =>
          have h4b := hcit.symm.trans h4
          rw [getProp_of_not_nullish _ h4, getProp_of_not_nullish _ h4b, ok_bind, ok_bind,
            getProp_of_not_nullish _ h4, getProp_of_not_nullish _ h4b, ok_bind, ok_bind,
            hpmid, habs, hauth, hdoi, hkw]
          cases h5 : isNullish (child (child (child (child t1 "PubmedArticleSet")
              "PubmedArticle") "MedlineCitation") "Article") with
          | true =>
            have h5b := hart.symm.trans h5
            simp only [getProp_nullish _ h5, getProp_nullish _ h5b]
          | false =>
            have h5b := hart.symm.trans h5
            simp only [getProp_of_not_nullish _ h5, getProp_of_not_nullish _ h5b, htitle,
              hjournal]
      · have h3b : ¬ truthy (child (child t2 "PubmedArticleSet") "PubmedArticle") = true :=
          fun h => h3 (hset.trans h)
        rw [if_neg h3, if_neg h3b]

theorem isObj_not_nullish {v : JVal} (h : isObj v = true) : isNullish v = false := by
  cases v <;> simp_all [isObj, isNullish]

theorem isObj_truthy {v : JVal} (h : isObj v = true) : truthy v = true := by
  cases v <;> simp_all [isObj, truthy]

theorem isObj_not_array {v : JVal} (h : isObj v = true) : isArray v = false := by
  cases v <;> simp_all [isObj, isArray]

theorem isObj_parent {t : JVal} {k : String} (h : isObj (child t k) = true) :
    isObj t = true :=
  isObj_of_child (isObj_not_nullish h)

theorem mapE_singleton {α β : Type} (f : α → Except Failure β) (x : α) :
    mapE f [x] = f x >>= fun one => pure [one] := by
  unfold mapE
  cases f x <;> rfl

/-- A single author object and the list holding that one object give
the same outcome. -/
theorem author_single_as_list (t x : JVal) (hx : nodeAt authorPath t = x)
    (hobj : isObj x = true) :
    normalizeDetail (setPath authorPath (arr [x]) t) = normalizeDetail t := by
  have hx2 : child (child (articleOf t) "AuthorList") "Author" = x := hx
  have ol : isObj (child (articleOf t) "AuthorList") = true :=
    isObj_of_child (by rw [hx2]; exact isObj_not_nullish hobj)
  have oa : isObj (articleOf t) = true := isObj_parent ol
  have oc : isObj (citationOf t) = true := isObj_parent oa
  have os : isObj (articleSetOf t) = true := isObj_parent oc
  have orr : isObj (child t "PubmedArticleSet") = true := isObj_parent os
  have ot : isObj t = true := isObj_parent orr
  have e1 : child (setPath authorPath (arr [x]) t) "PubmedArticleSet" =
      setPath ["PubmedArticle", "MedlineCitation", "Article", "AuthorList", "Author"]
        (arr [x]) (child t "PubmedArticleSet") := child_setPath_self _ _ _ _ ot
  have e2 : articleSetOf (setPath authorPath (arr [x]) t) =
      setPath ["MedlineCitation", "Article", "AuthorList", "Author"] (arr [x])
        (articleSetOf t) := by
    unfold articleSetOf
    rw [e1]
    exact child_setPath_self _ _ _ _ orr
  have e3 : citationOf (setPath authorPath (arr [x]) t) =
      setPath ["Article", "AuthorList", "Author"] (arr [x]) (citationOf t) := by
    unfold citationOf
    rw [e2]
    exact child_setPath_self _ _ _ _ os
  have e4 : articleOf (setPath authorPath (arr [x]) t) =
      setPath ["AuthorList", "Author"] (arr [x]) (articleOf t) := by
    unfold articleOf
    rw [e3]
    exact child_setPath_self _ _ _ _ oc
  have e5 : child (child (articleOf (setPath authorPath (arr [x]) t)) "AuthorList") "Author" =
      arr [x] := by
    rw [e4, child_setPath_self _ _ _ _ oa, child_setPath_self _ _ _ _ ol]
    rfl
  have na : isNullish (articleOf t) = false := isObj_not_nullish oa
  have nc : isNullish (citationOf t) = false := isObj_not_nullish oc
  have ns : isNullish (articleSetOf t) = false := isObj_not_nullish os
  have na2 : isNullish (articleOf (setPath authorPath (arr [x]) t)) = false := by
    rw [e4, isNullish_setPath]
    exact na
  apply normalizeDetail_congr
  · exact isNullish_setPath _ _ _ _
  · rw [e1, isNullish_setPath]
  · rw [e2, truthy_setPath]
  · rw [e3, isNullish_setPath]
  · rw [e3]
    exact child_setPath_other _ _ _ _ _ (by decide)
  · rw [abstractOf_eq _ na2, abstractOf_eq _ na, e4,
      child_setPath_other "AuthorList" "Abstract" _ _ _ (by decide)]
  · rw [authorsOf_form _ na2, authorsOf_form _ na, e5, hx2, if_pos (isObj_truthy hobj),
      isObj_not_array hobj]
    simp only [truthy, isArray, if_true, arrayMap, Bool.false_eq_true, if_false]
    exact mapE_singleton authorText x
  · rw [doiOf_form _ (by rw [e2, isNullish_setPath]; exact ns), doiOf_form _ ns, e2,
      child_setPath_other "MedlineCitation" "PubmedData" _ _ _ (by decide)]
  · rw [e4, isNullish_setPath]
  · rw [e4]
    exact child_setPath_other _ _ _ _ _ (by decide)
  · rw [e4]
    exact child_setPath_other _ _ _ _ _ (by decide)
  · rw [keywordsOf_form _ (by rw [e3, isNullish_setPath]; exact nc), keywordsOf_form _ nc, e3,
      child_setPath_other "Article" "KeywordList" _ _ _ (by decide)]

/-- A single bare abstract text that is not empty and the list holding
that one text give the same outcome. -/
theorem abstract_text_single_as_list (t : JVal) (s : String)
    (hx : nodeAt abstractTextPath t = str s) (hs : s ≠ "") :
    normalizeDetail (setPath abstractTextPath (arr [str s]) t) = normalizeDetail t := by
  have hx2 : child (child (articleOf t) "Abstract") "AbstractText" = str s := hx
  have ol : isObj (child (articleOf t) "Abstract") = true :=
    isObj_of_child (by rw [hx2]; rfl)
  have oa : isObj (articleOf t) = true := isObj_parent ol
  have oc : isObj (citationOf t) = true := isObj_parent oa
  have os : isObj (articleSetOf t) = true := isObj_parent oc
  have orr : isObj (child t "PubmedArticleSet") = true := isObj_parent os
  have ot : isObj t = true := isObj_parent orr
  have e1 : child (setPath abstractTextPath (arr [str s]) t) "PubmedArticleSet" =
      setPath ["PubmedArticle", "MedlineCitation", "Article", "Abstract", "AbstractText"]
        (arr [str s]) (child t "PubmedArticleSet") := child_setPath_self _ _ _ _ ot
  have e2 : articleSetOf (setPath abstractTextPath (arr [str s]) t) =
      setPath ["MedlineCitation", "Article", "Abstract", "AbstractText"] (arr [str s])
        (articleSetOf t) := by
    unfold articleSetOf
    rw [e1]
    exact child_setPath_self _ _ _ _ orr
  have e3 : citationOf (setPath abstractTextPath (arr [str s]) t) =
      setPath ["Article", "Abstract", "AbstractText"] (arr [str s]) (citationOf t) := by
    unfold citationOf
    rw [e2]
    exact child_setPath_self _ _ _ _ os
  have e4 : articleOf (setPath abstractTextPath (arr [str s]) t) =
      setPath ["Abstract", "AbstractText"] (arr [str s]) (articleOf t) := by
    unfold articleOf
    rw [e3]
    exact child_setPath_self _ _ _ _ oc
  have e5 : child (child (articleOf (setPath abstractTextPath (arr [str s]) t)) "Abstract")
      "AbstractText" = arr [str s] := by
    rw [e4, child_setPath_self _ _ _ _ oa, child_setPath_self _ _ _ _ ol]
    rfl
  have na : isNullish (articleOf t) = false := isObj_not_nullish oa
  have nc : isNullish (citationOf t) = false := isObj_not_nullish oc
  have ns : isNullish (articleSetOf t) = false := isObj_not_nullish os
  have na2 : isNullish (articleOf (setPath abstractTextPath (arr [str s]) t)) = false := by
    rw [e4, isNullish_setPath]
    exact na
  have htr : truthy (str s) = true := by simpa [truthy] using hs
  apply normalizeDetail_congr
  · exact isNullish_setPath _ _ _ _
  · rw [e1, isNullish_setPath]
  · rw [e2, truthy_setPath]
  · rw [e3, isNullish_setPath]
  · rw [e3]
    exact child_setPath_other _ _ _ _ _ (by decide)
  · rw [abstractOf_eq _ na2, abstractOf_eq _ na, e5, hx2, if_pos htr]
    rfl
  · rw [authorsOf_form _ na2, authorsOf_form _ na, e4,
      child_setPath_other "Abstract" "AuthorList" _ _ _ (by decide)]
  · rw [doiOf_form _ (by rw [e2, isNullish_setPath]; exact ns), doiOf_form _ ns, e2,
      child_setPath_other "MedlineCitation" "PubmedData" _ _ _ (by decide)]
  · rw [e4, isNullish_setPath]
  · rw [e4]
    exact child_setPath_other _ _ _ _ _ (by decide)
  · rw [e4]
    exact child_setPath_other _ _ _ _ _ (by decide)
  · rw [keywordsOf_form _ (by rw [e3, isNullish_setPath]; exact nc), keywordsOf_form _ nc, e3,
      child_setPath_other "Article" "KeywordList" _ _ _ (by decide)]

/-- A single identifier object and the list holding that one object give
the same outcome. -/
theorem article_id_single_as_list (t x : JVal) (hx : nodeAt articleIdPath t = x)
    (hobj : isObj x = true) :
    normalizeDetail (setPath articleIdPath (arr [x]) t) = normalizeDetail t := by
  have hx2 : child (child (child (articleSetOf t) "PubmedData") "ArticleIdList") "ArticleId" =
      x := hx
  have ol : isObj (child (child (articleSetOf t) "PubmedData") "ArticleIdList") = true :=
    isObj_of_child (by rw [hx2]; exact isObj_not_nullish hobj)
  have op : isObj (child (articleSetOf t) "PubmedData") = true := isObj_parent ol
  have os : isObj (articleSetOf t) = true := isObj_parent op
  have orr : isObj (child t "PubmedArticleSet") = true := isObj_parent os
  have ot : isObj t = true := isObj_parent orr
  have e1 : child (setPath articleIdPath (arr [x]) t) "PubmedArticleSet" =
      setPath ["PubmedArticle", "PubmedData", "ArticleIdList", "ArticleId"]
        (arr [x]) (child t "PubmedArticleSet") := child_setPath_self _ _ _ _ ot
  have e2 : articleSetOf (setPath articleIdPath (arr [x]) t) =
      setPath ["PubmedData", "ArticleIdList", "ArticleId"] (arr [x]) (articleSetOf t) := by
    unfold articleSetOf
    rw [e1]
    exact child_setPath_self _ _ _ _ orr
  have e3 : citationOf (setPath articleIdPath (arr [x]) t) = citationOf t := by
    unfold citationOf
    rw [e2]
    exact child_setPath_other _ _ _ _ _ (by decide)
  have e4 : articleOf (setPath articleIdPath (arr [x]) t) = articleOf t := by
    unfold articleOf
    rw [e3]
  have e5 : child (child (child (articleSetOf (setPath articleIdPath (arr [x]) t))
      "PubmedData") "ArticleIdList") "ArticleId" = arr [x] := by
    rw [e2, child_setPath_self _ _ _ _ os, child_setPath_self _ _ _ _ op,
      child_setPath_self _ _ _ _ ol]
    rfl
  have ns : isNullish (articleSetOf t) = false := isObj_not_nullish os
  apply normalizeDetail_congr
  · exact isNullish_setPath _ _ _ _
  · rw [e1, isNullish_setPath]
  · rw [e2, truthy_setPath]
  · rw [e3]
  · rw [e3]
  · rw [e4]
  · rw [e4]
  · rw [doiOf_form _ (by rw [e2, isNullish_setPath]; exact ns), doiOf_form _ ns, e5, hx2,
      if_pos (isObj_truthy hobj)]
    cases x <;> first | rfl | simp [isObj] at hobj
  · rw [e4]
  · rw [e4]
  · rw [e4]
  · rw [e3]

/-- A single keyword object and the list holding that one object give
the same outcome. -/
theorem keyword_single_as_list (t x : JVal) (hx : nodeAt keywordPath t = x)
    (hobj : isObj x = true) :
    normalizeDetail (setPath keywordPath (arr [x]) t) = normalizeDetail t := by
  have hx2 : child (child (citationOf t) "KeywordList") "Keyword" = x := hx
  have ol : isObj (child (citationOf t) "KeywordList") = true :=
    isObj_of_child (by rw [hx2]; exact isObj_not_nullish hobj)
  have oc : isObj (citationOf t) = true := isObj_parent ol
  have os : isObj (articleSetOf t) = true := isObj_parent oc
  have orr : isObj (child t "PubmedArticleSet") = true := isObj_parent os
  have ot : isObj t = true := isObj_parent orr
  have e1 : child (setPath keywordPath (arr [x]) t) "PubmedArticleSet" =
      setPath ["PubmedArticle", "MedlineCitation", "KeywordList", "Keyword"]
        (arr [x]) (child t "PubmedArticleSet") := child_setPath_self _ _ _ _ ot
  have e2 : articleSetOf (setPath keywordPath (arr [x]) t) =
      setPath ["MedlineCitation", "KeywordList", "Keyword"] (arr [x]) (articleSetOf t) := by
    unfold articleSetOf
    rw [e1]
    exact child_setPath_self _ _ _ _ orr
  have e3 : citationOf (setPath keywordPath (arr [x]) t) =
      setPath ["KeywordList", "Keyword"] (arr [x]) (citationOf t) := by
    unfold citationOf
    rw [e2]
    exact child_setPath_self _ _ _ _ os
  have e4 : articleOf (setPath keywordPath (arr [x]) t) = articleOf t := by
    unfold articleOf
    rw [e3]
    exact child_setPath_other _ _ _ _ _ (by decide)
  have e5 : child (citationOf (setPath keywordPath (arr [x]) t)) "KeywordList" =
      setPath ["Keyword"] (arr [x]) (child (citationOf t) "KeywordList") := by
    rw [e3]
    exact child_setPath_self _ _ _ _ oc
  have e6 : child (setPath ["Keyword"] (arr [x]) (child (citationOf t) "KeywordList"))
      "Keyword" = arr [x] := by
    rw [child_setPath_self _ _ _ _ ol]
    rfl
  have nc : isNullish (citationOf t) = false := isObj_not_nullish oc
  have ns : isNullish (articleSetOf t) = false := isObj_not_nullish os
  apply normalizeDetail_congr
  · exact isNullish_setPath _ _ _ _
  · rw [e1, isNullish_setPath]
  · rw [e2, truthy_setPath]
  · rw [e3, isNullish_setPath]
  · rw [e3]
    exact child_setPath_other _ _ _ _ _ (by decide)
  · rw [e4]
  · rw [e4]
  · rw [doiOf_form _ (by rw [e2, isNullish_setPath]; exact ns), doiOf_form _ ns, e2,
      child_setPath_other "MedlineCitation" "PubmedData" _ _ _ (by decide)]
  · rw [e4]
  · rw [e4]
  · rw [e4]
  · rw [keywordsOf_form _ (by rw [e3, isNullish_setPath]; exact nc), keywordsOf_form _ nc, e5,
      e6, truthy_setPath, hx2, if_pos (isObj_truthy ol), if_pos (isObj_truthy ol),
      isObj_not_array hobj]
    simp only [isArray, if_true, arrayMap, Bool.false_eq_true, if_false]
    exact mapE_singleton _ x

end PubMed
